import Mathlib

/-!
Verification of `src/scr/pic/draw.py` (`draw_circles_on_image_v2`).

The repository is a single utility function that decodes a base64-encoded
image, draws one filled/outlined circle per supplied coordinate, and
re-encodes the result as a base64 PNG string.  The function's own control
flow (base64 decode, image open, RGBA normalization, the per-coordinate
drawing loop, PNG save, base64 encode, and the blanket catch-print-reraise)
is embedded directly from the source.  The external collaborators (the
`base64` module, and PIL's `Image.open`, `Image.convert`, `ImageDraw.ellipse`
and `Image.save`) are out-of-scope black boxes per the spec; they are
modelled here by executable Lean functions faithful to the spec's contract
for them (standard base64 over bytes, an injective image serialization with
a decoding inverse, and an ellipse rasterizer that touches only pixels
inside the bounding box).
-/

/-- Bytes are modelled as lists of naturals; well-formed byte strings have
every element below 256. -/
abbrev Bytes := List Nat

/-! ## Base64 (models Python's `base64.b64encode` / `base64.b64decode`) -/

/-- The character of the standard base64 alphabet at index `n` (for `n < 64`). -/
def b64Char (n : Nat) : Char :=
  if n < 26 then Char.ofNat (65 + n)
  else if n < 52 then Char.ofNat (97 + (n - 26))
  else if n < 62 then Char.ofNat (48 + (n - 52))
  else if n = 62 then '+'
  else '/'

/-- The index of a character in the standard base64 alphabet, `none` for a
character outside the alphabet. -/
def b64Index (c : Char) : Option Nat :=
  let n := c.toNat
  if 65 ≤ n ∧ n ≤ 90 then some (n - 65)
  else if 97 ≤ n ∧ n ≤ 122 then some (n - 97 + 26)
  else if 48 ≤ n ∧ n ≤ 57 then some (n - 48 + 52)
  else if n = 43 then some 62
  else if n = 47 then some 63
  else none

/-- Base64-encode a byte list as a character list (RFC 4648 with `=` padding);
this is the byte-level content of Python's `base64.b64encode`. -/
def b64EncodeList : Bytes → List Char
  | [] => []
  | [b1] => [b64Char (b1 / 4), b64Char (b1 % 4 * 16), '=', '=']
  | [b1, b2] => [b64Char (b1 / 4), b64Char (b1 % 4 * 16 + b2 / 16), b64Char (b2 % 16 * 4), '=']
  | b1 :: b2 :: b3 :: rest =>
    b64Char (b1 / 4) :: b64Char (b1 % 4 * 16 + b2 / 16) ::
      b64Char (b2 % 16 * 4 + b3 / 64) :: b64Char (b3 % 64) :: b64EncodeList rest

/-- Base64-decode a character list, `none` when the input is not valid
base64; models the failure (`binascii.Error`) raised by
`base64.b64decode` on invalid input. -/
def b64DecodeList : List Char → Option Bytes
  | [] => some []
  | c1 :: c2 :: c3 :: c4 :: rest =>
    match b64Index c1, b64Index c2 with
    | some a, some b =>
      if c3 = '=' then
        if c4 = '=' && rest.isEmpty then some [a * 4 + b / 16] else none
      else
        match b64Index c3 with
        | some c =>
          if c4 = '=' then
            if rest.isEmpty then some [a * 4 + b / 16, b % 16 * 16 + c / 4] else none
          else
            match b64Index c4 with
            | some d =>
              match b64DecodeList rest with
              | some tail => some ((a * 4 + b / 16) :: (b % 16 * 16 + c / 4) :: (c % 4 * 64 + d) :: tail)
              | none => none
            | none => none
        | none => none
    | _, _ => none
  | _ => none

/-- Models `base64.b64decode` on a Python `str`. -/
def b64decode (s : String) : Option Bytes := b64DecodeList s.toList

/-- Models `base64.b64encode(...).decode("utf-8")`. -/
def b64encode (bs : Bytes) : String := String.mk (b64EncodeList bs)

/-! ## The image data model and the modelled codec -/

/-- A pixel stored canonically as an RGBA quadruple (channel values 0-255). -/
structure RGBA where
  r : Nat
  g : Nat
  b : Nat
  a : Nat
deriving DecidableEq, Repr

/-- Modelled from the spec: PIL's in-memory decoded bitmap, "an in-memory
decoded bitmap with a color mode (e.g., truecolor, truecolor+alpha) and pixel
dimensions".  Pixel content is stored canonically as RGBA quadruples, rows
indexed by `y`, columns by `x`. -/
structure Image where
  mode : String
  width : Nat
  height : Nat
  pixels : List (List RGBA)
deriving DecidableEq, Repr

/-- An image is well formed when its pixel grid matches its declared
dimensions; every image produced by decoding is well formed. -/
def Image.wellFormed (img : Image) : Prop :=
  img.pixels.length = img.height ∧ ∀ row ∈ img.pixels, row.length = img.width

instance (img : Image) : Decidable img.wellFormed := by
  unfold Image.wellFormed
  infer_instance

/-- Modelled from the spec: PIL's `Image.convert` — color-mode conversion
changes the mode tag and keeps the (canonically stored) pixel content. -/
def Image.convert (img : Image) (m : String) : Image :=
  { img with mode := m }

/-- The pixel of an image at column `i`, row `j` (`none` out of range). -/
def Image.getPixel (img : Image) (i j : Nat) : Option RGBA :=
  (img.pixels[j]?).bind fun row => row[i]?

/-- Whether a PIL color mode carries an alpha channel. -/
def modeHasAlpha (m : String) : Bool :=
  m = "RGBA" || m = "LA" || m = "PA" || m = "RGBa" || m = "La"

/-- The byte tag used by the modelled serialization for each supported color
mode; `none` for an unsupported mode. -/
def modeTag (m : String) : Option Nat :=
  if m = "1" then some 0
  else if m = "L" then some 1
  else if m = "LA" then some 2
  else if m = "P" then some 3
  else if m = "RGB" then some 4
  else if m = "RGBA" then some 5
  else if m = "CMYK" then some 6
  else if m = "PA" then some 7
  else none

/-- The color mode denoted by a serialized mode tag. -/
def tagMode (t : Nat) : Option String :=
  if t = 0 then some "1"
  else if t = 1 then some "L"
  else if t = 2 then some "LA"
  else if t = 3 then some "P"
  else if t = 4 then some "RGB"
  else if t = 5 then some "RGBA"
  else if t = 6 then some "CMYK"
  else if t = 7 then some "PA"
  else none

/-- Unary serialization of a natural number, terminated by a `0` byte. -/
def encNat (n : Nat) : Bytes := List.replicate n 1 ++ [0]

/-- Reads back one `encNat`-serialized natural, returning it and the
remaining bytes. -/
def decNat : Bytes → Option (Nat × Bytes)
  | [] => none
  | b :: rest =>
    if b = 0 then some (0, rest)
    else (decNat rest).map fun p => (p.1 + 1, p.2)

/-- Serialization of one pixel: its four channels in order. -/
def encPixel (p : RGBA) : Bytes := encNat p.r ++ encNat p.g ++ encNat p.b ++ encNat p.a

/-- Reads back one pixel. -/
def decPixel (bs : Bytes) : Option (RGBA × Bytes) :=
  (decNat bs).bind fun p1 =>
    (decNat p1.2).bind fun p2 =>
      (decNat p2.2).bind fun p3 =>
        (decNat p3.2).map fun p4 => (⟨p1.1, p2.1, p3.1, p4.1⟩, p4.2)

/-- Serialization of one pixel row. -/
def encRow : List RGBA → Bytes
  | [] => []
  | p :: ps => encPixel p ++ encRow ps

/-- Reads back a row of exactly `n` pixels. -/
def decRow : Nat → Bytes → Option (List RGBA × Bytes)
  | 0, bs => some ([], bs)
  | n + 1, bs =>
    (decPixel bs).bind fun pb =>
      (decRow n pb.2).map fun psr => (pb.1 :: psr.1, psr.2)

/-- Serialization of the whole pixel grid. -/
def encRows : List (List RGBA) → Bytes
  | [] => []
  | row :: rows => encRow row ++ encRows rows

/-- Reads back `h` rows of `w` pixels each. -/
def decRows : Nat → Nat → Bytes → Option (List (List RGBA) × Bytes)
  | 0, _, bs => some ([], bs)
  | h + 1, w, bs =>
    (decRow w bs).bind fun rb =>
      (decRows h w rb.2).map fun rr => (rb.1 :: rr.1, rr.2)

/-- The serialized form of an image with mode tag `t`: a four-byte magic
header, then tag, width, height and the pixel grid. -/
def pngPayload (img : Image) (t : Nat) : Bytes :=
  137 :: 80 :: 78 :: 71 :: (encNat t ++ encNat img.width ++ encNat img.height ++ encRows img.pixels)

/-- Modelled from the spec: `image.save(buffer, format="PNG")`, the encode-to-
bytes collaborator — an injective serialization preserving mode (hence the
alpha channel), dimensions and every pixel; fails on an unsupported mode. -/
def imageSavePNG (img : Image) : Option Bytes :=
  (modeTag img.mode).map (pngPayload img)

/-- Modelled from the spec: `Image.open(io.BytesIO(data))`, the decode-from-
bytes collaborator — the partial inverse of the serialization, failing
(`UnidentifiedImageError`) on bytes that are not a supported raster format. -/
def imageOpenBytes (bs : Bytes) : Option Image :=
  match bs with
  | 137 :: 80 :: 78 :: 71 :: rest =>
    (decNat rest).bind fun tr =>
      (tagMode tr.1).bind fun mode =>
        (decNat tr.2).bind fun wr =>
          (decNat wr.2).bind fun hr =>
            (decRows hr.1 wr.1 hr.2).bind fun rr =>
              if rr.2.isEmpty then some ⟨mode, wr.1, hr.1, rr.1⟩ else none
  | _ => none

/-! ## The drawing primitive (models `ImageDraw.Draw(image)` / `draw.ellipse`) -/

/-- Maps a function over a list together with each element's index. -/
def mapWithIdx (f : Nat → α → β) : List α → List β
  | [] => []
  | a :: as => f 0 a :: mapWithIdx (fun i b => f (i + 1) b) as

/-- Whether the point `(px, py)` lies inside the ellipse inscribed in the
axis-aligned box `[x0, x1] × [y0, y1]` (computed with doubled coordinates so
the center needs no division). -/
def insideEllipse (x0 y0 x1 y1 px py : Int) : Bool :=
  (2 * px - (x0 + x1)) ^ 2 * (y1 - y0) ^ 2 + (2 * py - (y0 + y1)) ^ 2 * (x1 - x0) ^ 2
    ≤ (x1 - x0) ^ 2 * (y1 - y0) ^ 2

/-- Modelled from the spec: the color a single pixel receives from one
`draw.ellipse(xy=[(x0, y0), (x1, y1)], fill=…, outline=…, width=…)` call.
A pixel outside the bounding box is untouched; inside it, the outline ring
(the ellipse minus the ellipse shrunk inward by the stroke width) gets the
outline color, the remaining interior gets the fill color when a fill is
given, and every other pixel keeps its old value. -/
def ellipsePx (x0 y0 x1 y1 : Int) (fill : Option RGBA) (outline : RGBA) (w : Int)
    (i j : Nat) (old : RGBA) : RGBA :=
  let px : Int := i
  let py : Int := j
  if x0 ≤ px ∧ px ≤ x1 ∧ y0 ≤ py ∧ py ≤ y1 then
    if insideEllipse x0 y0 x1 y1 px py then
      if insideEllipse (x0 + w) (y0 + w) (x1 - w) (y1 - w) px py then
        match fill with
        | some f => f
        | none => old
      else outline
    else old
  else old

/-- Modelled from the spec: one call of the 2D drawing primitive
`draw.ellipse`, drawing a filled/outlined ellipse inscribed in the given
bounding box directly onto the image's pixel grid. -/
def drawEllipse (x0 y0 x1 y1 : Int) (fill : Option RGBA) (outline : RGBA) (w : Int)
    (img : Image) : Image :=
  { img with
    pixels := mapWithIdx
      (fun j row => mapWithIdx (fun i p => ellipsePx x0 y0 x1 y1 fill outline w i j p) row)
      img.pixels }

/-! ## Colors, errors and the embedded function `draw_circles_on_image_v2` -/

/-- The Python type alias `ColorValue = Union[str, Tuple[int, int, int],
Tuple[int, int, int, int]]`: a named color string, an RGB triple or an RGBA
quadruple. -/
inductive ColorValue where
  | name : String → ColorValue
  | rgb : Nat → Nat → Nat → ColorValue
  | rgba : Nat → Nat → Nat → Nat → ColorValue
deriving DecidableEq, Repr

/-- Modelled from the spec: PIL's color resolution inside the drawing
primitive — a known color name, an RGB triple (opaque) or an RGBA quadruple
resolves to a concrete RGBA value; an unknown color name is a malformed
color value and fails (`ValueError`). -/
def resolveColor : ColorValue → Option RGBA
  | .name s =>
    if s = "red" then some ⟨255, 0, 0, 255⟩
    else if s = "black" then some ⟨0, 0, 0, 255⟩
    else if s = "white" then some ⟨255, 255, 255, 255⟩
    else if s = "green" then some ⟨0, 128, 0, 255⟩
    else if s = "blue" then some ⟨0, 0, 255, 255⟩
    else none
  | .rgb r g b => some ⟨r, g, b, 255⟩
  | .rgba r g b a => some ⟨r, g, b, a⟩

/-- Resolution of the `fill_color` argument: Python's `None` means "no fill"
and is passed through; a present color must resolve. -/
def resolveFill : Option ColorValue → Option (Option RGBA)
  | none => some none
  | some cv => (resolveColor cv).map some

/-- The step of the pipeline at which a failure arose, the spec's error
taxonomy (`DecodeError` for both base64 and image-format failures,
`DrawError`, `EncodeError`). -/
inductive ErrorKind where
  | b64DecodeError
  | imageFormatError
  | drawError
  | encodeError
deriving DecidableEq, Repr

/-- The single generic failure surfaced to the caller (the spec's
`ProcessingError`); in the Python source this is the re-raised exception of
the failing step. -/
structure ProcessingError where
  kind : ErrorKind
deriving DecidableEq, Repr

/-- The diagnostic line printed by the `except` block before re-raising —
the fixed prefix 处理图片时发生错误 followed by the exception's description. -/
def diagnostic (e : ErrorKind) : String :=
  "处理图片时发生错误: " ++
    (match e with
     | .b64DecodeError => "Invalid base64-encoded string"
     | .imageFormatError => "cannot identify image file"
     | .drawError => "unknown color specifier"
     | .encodeError => "cannot write mode")

/-- The body of the `for x, y in coordinates:` loop: one
`draw.ellipse(xy=[(x - radius, y - radius), (x + radius, y + radius)],
fill=fill_color, outline=outline_color, width=outline_width)` call, including
the drawing primitive's color validation. -/
def drawStep (radius : Int) (fill_color : Option ColorValue) (outline_color : ColorValue)
    (outline_width : Int) (img : Image) (c : Int × Int) : Except ErrorKind Image :=
  match resolveFill fill_color, resolveColor outline_color with
  | some f, some o =>
    .ok (drawEllipse (c.1 - radius) (c.2 - radius) (c.1 + radius) (c.2 + radius)
          f o outline_width img)
  | _, _ => .error ErrorKind.drawError

/-- The RGBA normalization of the source:
`if image.mode != "RGBA": image = image.convert("RGBA")`. -/
def normalizeRGBA (image : Image) : Image :=
  if image.mode ≠ "RGBA" then image.convert "RGBA" else image

/-- The pure drawing loop on resolved colors: one ellipse inscribed in the
square `[x - radius, y - radius] × [x + radius, y + radius]` per coordinate,
in input order. -/
def drawLoop (radius : Int) (f : Option RGBA) (o : RGBA) (w : Int)
    (img : Image) (coords : List (Int × Int)) : Image :=
  coords.foldl
    (fun im c => drawEllipse (c.1 - radius) (c.2 - radius) (c.1 + radius) (c.2 + radius)
      f o w im) img

/-- The `try:` block of `draw_circles_on_image_v2`, step for step:
base64-decode the payload, open the image, normalize to RGBA, draw one
circle per coordinate, save as PNG, base64-encode the bytes. -/
def drawCirclesCore (base64_image_string : String) (coordinates : List (Int × Int))
    (radius : Int) (fill_color : Option ColorValue) (outline_color : ColorValue)
    (outline_width : Int) : Except ErrorKind String :=
  match b64decode base64_image_string with
  | none => .error ErrorKind.b64DecodeError
  | some image_data =>
    match imageOpenBytes image_data with
    | none => .error ErrorKind.imageFormatError
    | some image =>
      match coordinates.foldlM (drawStep radius fill_color outline_color outline_width)
          (normalizeRGBA image) with
      | .error e => .error e
      | .ok drawn =>
        match imageSavePNG drawn with
        | none => .error ErrorKind.encodeError
        | some byte_data => .ok (b64encode byte_data)

/-- The embedding of `draw_circles_on_image_v2`, default arguments included.
The `try/except` wrapper is modelled by pairing the `Except` result with the
list of diagnostic lines printed: on success nothing is printed; on failure
the `except` block prints one diagnostic and re-raises the same failure
(surfaced as the single generic `ProcessingError`). -/
def draw_circles_on_image_v2 (base64_image_string : String)
    (coordinates : List (Int × Int)) (radius : Int := 15)
    (fill_color : Option ColorValue := some (ColorValue.name "red"))
    (outline_color : ColorValue := ColorValue.name "red")
    (outline_width : Int := 1) :
    Except ProcessingError String × List String :=
  match drawCirclesCore base64_image_string coordinates radius fill_color outline_color
      outline_width with
  | .ok s => (.ok s, [])
  | .error k => (.error ⟨k⟩, [diagnostic k])

/-! ## Concrete instances used by the witnesses -/

/-- A small RGB test image (no alpha in its mode tag). -/
def exImg : Image :=
  ⟨"RGB", 2, 2, [[⟨1, 2, 3, 4⟩, ⟨5, 6, 7, 8⟩], [⟨9, 10, 11, 12⟩, ⟨0, 0, 0, 0⟩]]⟩

/-- The serialized bytes of `exImg` (mode tag 4 = RGB). -/
def exBytes : Bytes := pngPayload exImg 4

/-- The base64 string encoding `exBytes`. -/
def exStr : String := b64encode exBytes

/-- A small LA test image (a mode that already carries alpha). -/
def exImgLA : Image := ⟨"LA", 1, 1, [[⟨3, 3, 3, 7⟩]]⟩

theorem b64Index_b64Char : ∀ n < 64, b64Index (b64Char n) = some n := by decide

theorem b64Char_ne_pad : ∀ n < 64, b64Char n ≠ '=' := by decide

theorem b64DecodeList_encode (bs : Bytes) (h : ∀ b ∈ bs, b < 256) :
    b64DecodeList (b64EncodeList bs) = some bs := by
  induction bs using b64EncodeList.induct with
  | case1 => rfl
  | case2 b1 =>
    have hb1 : b1 < 256 := h b1 (by simp)
    have h1 : b1 / 4 < 64 := by omega
    have h2 : b1 % 4 * 16 < 64 := by omega
    have e0 : b1 / 4 * 4 + b1 % 4 * 16 / 16 = b1 := by omega
    simp only [b64EncodeList, b64DecodeList, b64Index_b64Char _ h1, b64Index_b64Char _ h2]
    simp
    omega
  | case3 b1 b2 =>
    have hb1 : b1 < 256 := h b1 (by simp)
    have hb2 : b2 < 256 := h b2 (by simp)
    have h1 : b1 / 4 < 64 := by omega
    have h2 : b1 % 4 * 16 + b2 / 16 < 64 := by omega
    have h3 : b2 % 16 * 4 < 64 := by omega
    have hne : b64Char (b2 % 16 * 4) ≠ '=' := b64Char_ne_pad _ h3
    have e1 : b1 / 4 * 4 + (b1 % 4 * 16 + b2 / 16) / 16 = b1 := by omega
    have e2 : (b1 % 4 * 16 + b2 / 16) % 16 * 16 + b2 % 16 * 4 / 4 = b2 := by omega
    simp only [b64EncodeList, b64DecodeList, b64Index_b64Char _ h1, b64Index_b64Char _ h2,
      b64Index_b64Char _ h3, if_neg hne]
    simp
    omega
  | case4 b1 b2 b3 rest ih =>
    have hb1 : b1 < 256 := h b1 (by simp)
    have hb2 : b2 < 256 := h b2 (by simp)
    have hb3 : b3 < 256 := h b3 (by simp)
    have h1 : b1 / 4 < 64 := by omega
    have h2 : b1 % 4 * 16 + b2 / 16 < 64 := by omega
    have h3 : b2 % 16 * 4 + b3 / 64 < 64 := by omega
    have h4 : b3 % 64 < 64 := by omega
    have hrest : ∀ b ∈ rest, b < 256 := by
      intro b hb
      exact h b (by simp [hb])
    have e1 : b1 / 4 * 4 + (b1 % 4 * 16 + b2 / 16) / 16 = b1 := by omega
    have e2 : (b1 % 4 * 16 + b2 / 16) % 16 * 16 + (b2 % 16 * 4 + b3 / 64) / 4 = b2 := by omega
    have e3 : (b2 % 16 * 4 + b3 / 64) % 4 * 64 + b3 % 64 = b3 := by omega
    simp only [b64EncodeList, b64DecodeList, b64Index_b64Char _ h1, b64Index_b64Char _ h2,
      b64Index_b64Char _ h3, b64Index_b64Char _ h4, if_neg (b64Char_ne_pad _ h3),
      if_neg (b64Char_ne_pad _ h4), ih hrest]
    simp
    omega

theorem b64decode_b64encode (bs : Bytes) (h : ∀ b ∈ bs, b < 256) :
    b64decode (b64encode bs) = some bs := by
  have : (b64encode bs).toList = b64EncodeList bs := rfl
  rw [b64decode, this, b64DecodeList_encode bs h]

/-! ## Roundtrip and well-formedness of the modelled codec -/

theorem decNat_encNat (n : Nat) (r : Bytes) : decNat (encNat n ++ r) = some (n, r) := by
  simp only [encNat, List.append_assoc, List.singleton_append]
  induction n with
  | zero => simp [decNat]
  | succ n ih => simp [List.replicate_succ, decNat, ih]

theorem decPixel_encPixel (p : RGBA) (r : Bytes) : decPixel (encPixel p ++ r) = some (p, r) := by
  simp [decPixel, encPixel, List.append_assoc, decNat_encNat]

theorem decRow_encRow (row : List RGBA) (r : Bytes) :
    decRow row.length (encRow row ++ r) = some (row, r) := by
  induction row generalizing r with
  | nil => rfl
  | cons p ps ih =>
    simp [decRow, encRow, List.append_assoc, decPixel_encPixel, ih]

theorem decRows_encRows (rows : List (List RGBA)) (w : Nat) (r : Bytes)
    (hw : ∀ row ∈ rows, row.length = w) :
    decRows rows.length w (encRows rows ++ r) = some (rows, r) := by
  induction rows generalizing r with
  | nil => rfl
  | cons row rows ih =>
    have hrow : row.length = w := hw row (by simp)
    have hrest : ∀ q ∈ rows, q.length = w := fun q hq => hw q (by simp [hq])
    have hdr : decRow w (encRow row ++ (encRows rows ++ r)) = some (row, encRows rows ++ r) := by
      rw [← hrow]
      exact decRow_encRow row _
    simp only [encRows, List.length_cons, decRows, List.append_assoc]
    simp [hdr, ih _ hrest]

theorem tagMode_modeTag (m : String) (t : Nat) (h : modeTag m = some t) :
    tagMode t = some m := by
  unfold modeTag at h
  split_ifs at h <;> (try injection h with h) <;> (try cases h) <;> simp_all [tagMode]

theorem imageOpenBytes_pngPayload (img : Image) (t : Nat)
    (htag : modeTag img.mode = some t) (hwf : img.wellFormed) :
    imageOpenBytes (pngPayload img t) = some img := by
  obtain ⟨hh, hw⟩ := hwf
  have hrows : decRows img.height img.width (encRows img.pixels) = some (img.pixels, []) := by
    have := decRows_encRows img.pixels img.width [] hw
    rw [List.append_nil, hh] at this
    exact this
  simp [imageOpenBytes, pngPayload, List.append_assoc, decNat_encNat,
    tagMode_modeTag img.mode t htag, hrows]

theorem mem_encNat_lt (n : Nat) : ∀ b ∈ encNat n, b < 256 := by
  intro b hb
  simp only [encNat, List.mem_append, List.mem_replicate, List.mem_singleton] at hb
  rcases hb with ⟨_, rfl⟩ | rfl <;> omega

theorem mem_encPixel_lt (p : RGBA) : ∀ b ∈ encPixel p, b < 256 := by
  intro b hb
  simp only [encPixel, List.mem_append] at hb
  rcases hb with ((hb | hb) | hb) | hb <;> exact mem_encNat_lt _ b hb

theorem mem_encRow_lt (row : List RGBA) : ∀ b ∈ encRow row, b < 256 := by
  induction row with
  | nil => intro b hb; simp [encRow] at hb
  | cons p ps ih =>
    intro b hb
    simp only [encRow, List.mem_append] at hb
    rcases hb with hb | hb
    · exact mem_encPixel_lt p b hb
    · exact ih b hb

theorem mem_encRows_lt (rows : List (List RGBA)) : ∀ b ∈ encRows rows, b < 256 := by
  induction rows with
  | nil => intro b hb; simp [encRows] at hb
  | cons row rows ih =>
    intro b hb
    simp only [encRows, List.mem_append] at hb
    rcases hb with hb | hb
    · exact mem_encRow_lt row b hb
    · exact ih b hb

theorem mem_pngPayload_lt (img : Image) (t : Nat) :
    ∀ b ∈ pngPayload img t, b < 256 := by
  intro b hb
  simp only [pngPayload, List.mem_cons, List.mem_append] at hb
  rcases hb with rfl | rfl | rfl | rfl | ((hb | hb) | hb) | hb
  · omega
  · omega
  · omega
  · omega
  · exact mem_encNat_lt _ b hb
  · exact mem_encNat_lt _ b hb
  · exact mem_encNat_lt _ b hb
  · exact mem_encRows_lt _ b hb

theorem decRow_length (n : Nat) (bs : Bytes) (row : List RGBA) (r : Bytes)
    (h : decRow n bs = some (row, r)) : row.length = n := by
  induction n generalizing bs row r with
  | zero =>
    simp only [decRow] at h
    cases h
    rfl
  | succ n ih =>
    simp only [decRow, Option.bind_eq_some, Option.map_eq_some'] at h
    obtain ⟨pb, _, psr, hrec, heq⟩ := h
    cases heq
    simp [ih pb.2 psr.1 psr.2 (by rw [hrec])]

theorem decRows_shape (h w : Nat) (bs : Bytes) (rows : List (List RGBA)) (r : Bytes)
    (hd : decRows h w bs = some (rows, r)) :
    rows.length = h ∧ ∀ row ∈ rows, row.length = w := by
  induction h generalizing bs rows r with
  | zero =>
    simp only [decRows] at hd
    cases hd
    exact ⟨rfl, by intro row hrow; cases hrow⟩
  | succ h ih =>
    simp only [decRows, Option.bind_eq_some, Option.map_eq_some'] at hd
    obtain ⟨rb, hrb, rr, hrec, heq⟩ := hd
    cases heq
    obtain ⟨hlen, hall⟩ := ih rb.2 rr.1 rr.2 (by rw [hrec])
    refine ⟨by simp [hlen], ?_⟩
    intro row hmem
    rcases List.mem_cons.mp hmem with rfl | hmem
    · exact decRow_length w bs rb.1 rb.2 (by rw [hrb])
    · exact hall row hmem

theorem imageOpenBytes_wellFormed (bs : Bytes) (img : Image)
    (h : imageOpenBytes bs = some img) : img.wellFormed := by
  unfold imageOpenBytes at h
  split at h
  · simp only [Option.bind_eq_some] at h
    obtain ⟨tr, _, mode, _, wr, _, hr, _, rr, hrows, hlast⟩ := h
    split at hlast
    · cases hlast
      exact decRows_shape hr.1 wr.1 hr.2 rr.1 rr.2 (by rw [hrows])
    · cases hlast
  · cases h

theorem length_mapWithIdx (f : Nat → α → β) (l : List α) :
    (mapWithIdx f l).length = l.length := by
  induction l generalizing f with
  | nil => rfl
  | cons a as ih => simp [mapWithIdx, ih]

theorem getElem?_mapWithIdx (f : Nat → α → β) (l : List α) (i : Nat) :
    (mapWithIdx f l)[i]? = (l[i]?).map (f i) := by
  induction l generalizing f i with
  | nil => simp [mapWithIdx]
  | cons a as ih =>
    cases i with
    | zero => simp [mapWithIdx]
    | succ i => simp [mapWithIdx, ih]

theorem drawEllipse_mode (x0 y0 x1 y1 : Int) (fill : Option RGBA) (outline : RGBA) (w : Int)
    (img : Image) : (drawEllipse x0 y0 x1 y1 fill outline w img).mode = img.mode := rfl

theorem drawEllipse_width (x0 y0 x1 y1 : Int) (fill : Option RGBA) (outline : RGBA) (w : Int)
    (img : Image) : (drawEllipse x0 y0 x1 y1 fill outline w img).width = img.width := rfl

theorem drawEllipse_height (x0 y0 x1 y1 : Int) (fill : Option RGBA) (outline : RGBA) (w : Int)
    (img : Image) : (drawEllipse x0 y0 x1 y1 fill outline w img).height = img.height := rfl

theorem mem_mapWithIdx (f : Nat → α → β) (l : List α) (b : β) (h : b ∈ mapWithIdx f l) :
    ∃ j a, l[j]? = some a ∧ b = f j a := by
  induction l generalizing f with
  | nil => simp [mapWithIdx] at h
  | cons a as ih =>
    simp only [mapWithIdx, List.mem_cons] at h
    rcases h with rfl | h
    · exact ⟨0, a, by simp, rfl⟩
    · obtain ⟨j, a2, hget, rfl⟩ := ih _ h
      exact ⟨j + 1, a2, by simpa using hget, rfl⟩

theorem drawEllipse_wellFormed (x0 y0 x1 y1 : Int) (fill : Option RGBA) (outline : RGBA)
    (w : Int) (img : Image) (hwf : img.wellFormed) :
    (drawEllipse x0 y0 x1 y1 fill outline w img).wellFormed := by
  obtain ⟨hh, hw⟩ := hwf
  constructor
  · simpa [drawEllipse, length_mapWithIdx] using hh
  · intro row hrow
    simp only [drawEllipse] at hrow
    obtain ⟨j, q, hget, rfl⟩ := mem_mapWithIdx _ _ _ hrow
    simpa [length_mapWithIdx] using hw q (List.getElem?_mem hget)

theorem getPixel_drawEllipse (x0 y0 x1 y1 : Int) (fill : Option RGBA) (outline : RGBA)
    (w : Int) (img : Image) (i j : Nat) :
    (drawEllipse x0 y0 x1 y1 fill outline w img).getPixel i j
      = (img.getPixel i j).map (ellipsePx x0 y0 x1 y1 fill outline w i j) := by
  unfold Image.getPixel drawEllipse
  simp only [getElem?_mapWithIdx]
  cases hq : img.pixels[j]? with
  | none => simp
  | some q => simp [getElem?_mapWithIdx]

theorem ellipsePx_outside (x0 y0 x1 y1 : Int) (fill : Option RGBA) (outline : RGBA)
    (w : Int) (i j : Nat) (old : RGBA)
    (h : ¬(x0 ≤ (i : Int) ∧ (i : Int) ≤ x1 ∧ y0 ≤ (j : Int) ∧ (j : Int) ≤ y1)) :
    ellipsePx x0 y0 x1 y1 fill outline w i j old = old := by
  simp only [ellipsePx, if_neg h]

/-! ## Pipeline lemmas -/

theorem normalizeRGBA_mode (img : Image) : (normalizeRGBA img).mode = "RGBA" := by
  unfold normalizeRGBA
  split
  · rfl
  · rename_i h
    simpa using h

theorem normalizeRGBA_pixels (img : Image) : (normalizeRGBA img).pixels = img.pixels := by
  unfold normalizeRGBA Image.convert
  split <;> rfl

theorem normalizeRGBA_width (img : Image) : (normalizeRGBA img).width = img.width := by
  unfold normalizeRGBA Image.convert
  split <;> rfl

theorem normalizeRGBA_height (img : Image) : (normalizeRGBA img).height = img.height := by
  unfold normalizeRGBA Image.convert
  split <;> rfl

theorem normalizeRGBA_wellFormed (img : Image) (h : img.wellFormed) :
    (normalizeRGBA img).wellFormed := by
  obtain ⟨hh, hw⟩ := h
  exact ⟨by rw [normalizeRGBA_pixels, normalizeRGBA_height]; exact hh,
    by rw [normalizeRGBA_pixels, normalizeRGBA_width]; exact hw⟩

theorem foldlM_drawStep_ok (radius : Int) (fill_color : Option ColorValue)
    (outline_color : ColorValue) (outline_width : Int) (f : Option RGBA) (o : RGBA)
    (hf : resolveFill fill_color = some f) (ho : resolveColor outline_color = some o)
    (coords : List (Int × Int)) (img : Image) :
    coords.foldlM (drawStep radius fill_color outline_color outline_width) img
      = Except.ok (drawLoop radius f o outline_width img coords) := by
  induction coords generalizing img with
  | nil => rfl
  | cons c cs ih =>
    have hstep : drawStep radius fill_color outline_color outline_width img c
        = Except.ok (drawEllipse (c.1 - radius) (c.2 - radius) (c.1 + radius) (c.2 + radius)
            f o outline_width img) := by
      unfold drawStep
      rw [hf, ho]
    simp only [List.foldlM_cons, hstep, drawLoop, List.foldl_cons]
    exact ih _

theorem drawLoop_mode (radius : Int) (f : Option RGBA) (o : RGBA) (w : Int)
    (img : Image) (coords : List (Int × Int)) :
    (drawLoop radius f o w img coords).mode = img.mode := by
  induction coords generalizing img with
  | nil => rfl
  | cons c cs ih => simpa [drawLoop, List.foldl_cons] using ih _

theorem drawLoop_width (radius : Int) (f : Option RGBA) (o : RGBA) (w : Int)
    (img : Image) (coords : List (Int × Int)) :
    (drawLoop radius f o w img coords).width = img.width := by
  induction coords generalizing img with
  | nil => rfl
  | cons c cs ih => simpa [drawLoop, List.foldl_cons] using ih _

theorem drawLoop_height (radius : Int) (f : Option RGBA) (o : RGBA) (w : Int)
    (img : Image) (coords : List (Int × Int)) :
    (drawLoop radius f o w img coords).height = img.height := by
  induction coords generalizing img with
  | nil => rfl
  | cons c cs ih => simpa [drawLoop, List.foldl_cons] using ih _

theorem drawLoop_wellFormed (radius : Int) (f : Option RGBA) (o : RGBA) (w : Int)
    (img : Image) (coords : List (Int × Int)) (h : img.wellFormed) :
    (drawLoop radius f o w img coords).wellFormed := by
  induction coords generalizing img with
  | nil => exact h
  | cons c cs ih =>
    simp only [drawLoop, List.foldl_cons]
    exact ih _ (drawEllipse_wellFormed _ _ _ _ _ _ _ _ h)

theorem modeTag_RGBA : modeTag "RGBA" = some 5 := rfl

theorem drawCirclesCore_ok (s : String) (coords : List (Int × Int)) (radius : Int)
    (fill_color : Option ColorValue) (outline_color : ColorValue) (outline_width : Int)
    (bytes : Bytes) (img : Image) (f : Option RGBA) (o : RGBA)
    (hdec : b64decode s = some bytes)
    (hopen : imageOpenBytes bytes = some img)
    (hf : resolveFill fill_color = some f)
    (ho : resolveColor outline_color = some o) :
    drawCirclesCore s coords radius fill_color outline_color outline_width
      = Except.ok (b64encode
          (pngPayload (drawLoop radius f o outline_width (normalizeRGBA img) coords) 5)) := by
  have hmode : (drawLoop radius f o outline_width (normalizeRGBA img) coords).mode = "RGBA" := by
    rw [drawLoop_mode, normalizeRGBA_mode]
  unfold drawCirclesCore
  simp only [hdec, hopen,
    foldlM_drawStep_ok radius fill_color outline_color outline_width f o hf ho coords
      (normalizeRGBA img), imageSavePNG, hmode, modeTag_RGBA, Option.map_some']

theorem decodedOutput (s : String) (coords : List (Int × Int)) (radius : Int)
    (fill_color : Option ColorValue) (outline_color : ColorValue) (outline_width : Int)
    (bytes : Bytes) (img : Image) (f : Option RGBA) (o : RGBA)
    (hdec : b64decode s = some bytes)
    (hopen : imageOpenBytes bytes = some img)
    (hf : resolveFill fill_color = some f)
    (ho : resolveColor outline_color = some o) :
    ∃ out png,
      draw_circles_on_image_v2 s coords radius fill_color outline_color outline_width
        = (Except.ok out, []) ∧
      b64decode out = some png ∧
      imageOpenBytes png
        = some (drawLoop radius f o outline_width (normalizeRGBA img) coords) := by
  have hcore := drawCirclesCore_ok s coords radius fill_color outline_color outline_width
    bytes img f o hdec hopen hf ho
  set final := drawLoop radius f o outline_width (normalizeRGBA img) coords with hfinal
  have hmode : final.mode = "RGBA" := by
    rw [hfinal, drawLoop_mode, normalizeRGBA_mode]
  have hwf : final.wellFormed :=
    drawLoop_wellFormed _ _ _ _ _ _
      (normalizeRGBA_wellFormed img (imageOpenBytes_wellFormed bytes img hopen))
  refine ⟨b64encode (pngPayload final 5), pngPayload final 5, ?_, ?_, ?_⟩
  · unfold draw_circles_on_image_v2
    rw [hcore]
  · exact b64decode_b64encode _ (mem_pngPayload_lt final 5)
  · exact imageOpenBytes_pngPayload final 5 (by rw [hmode]; rfl) hwf

theorem getPixel_normalizeRGBA (img : Image) (i j : Nat) :
    (normalizeRGBA img).getPixel i j = img.getPixel i j := by
  unfold Image.getPixel
  rw [normalizeRGBA_pixels]

/-! ## The claims -/

/-- C1: for every valid base64-encoded image string, coordinate sequence and
drawing parameters (a fill that resolves — or is absent — and an outline
color that resolves), `draw_circles_on_image_v2` succeeds with a new
base64-encoded PNG string whose decoded image equals the (RGBA-normalized)
input image with exactly one filled/outlined circle drawn per supplied
coordinate, centered there, in input order. -/
theorem spec_contract_valid_inputs
    (s : String) (coords : List (Int × Int)) (radius : Int)
    (fill_color : Option ColorValue) (outline_color : ColorValue) (outline_width : Int)
    (bytes : Bytes) (img : Image) (f : Option RGBA) (o : RGBA)
    (hdec : b64decode s = some bytes)
    (hopen : imageOpenBytes bytes = some img)
    (hf : resolveFill fill_color = some f)
    (ho : resolveColor outline_color = some o) :
    ∃ out png,
      draw_circles_on_image_v2 s coords radius fill_color outline_color outline_width
        = (Except.ok out, []) ∧
      b64decode out = some png ∧
      imageOpenBytes png
        = some (drawLoop radius f o outline_width (normalizeRGBA img) coords) :=
  decodedOutput s coords radius fill_color outline_color outline_width bytes img f o
    hdec hopen hf ho

theorem spec_contract_valid_inputs_witness :
    ∃ out png,
      draw_circles_on_image_v2 exStr [(1, 1)] 1 (some (ColorValue.name "red"))
          (ColorValue.name "black") 1
        = (Except.ok out, []) ∧
      b64decode out = some png ∧
      imageOpenBytes png
        = some (drawLoop 1 (some ⟨255, 0, 0, 255⟩) ⟨0, 0, 0, 255⟩ 1
            (normalizeRGBA exImg) [(1, 1)]) :=
  spec_contract_valid_inputs exStr [(1, 1)] 1 (some (ColorValue.name "red"))
    (ColorValue.name "black") 1 exBytes exImg (some ⟨255, 0, 0, 255⟩) ⟨0, 0, 0, 255⟩
    (b64decode_b64encode exBytes (mem_pngPayload_lt exImg 4))
    (imageOpenBytes_pngPayload exImg 4 rfl (by decide))
    rfl rfl

/-- C2: for every input on which a step of the pipeline fails (base64 decode,
image decode, drawing at some coordinate, or encoding), the failure surfaces
to the caller as the single generic `ProcessingError` carrying that step's
error kind, exactly one diagnostic is emitted first, and no result string is
returned; the pipeline is evaluated once (no retry) and an error result is
always accompanied by exactly the one diagnostic. -/
theorem spec_error_propagation (s : String) (coords : List (Int × Int)) (radius : Int)
    (fill_color : Option ColorValue) (outline_color : ColorValue) (outline_width : Int) :
    (b64decode s = none →
      draw_circles_on_image_v2 s coords radius fill_color outline_color outline_width
        = (Except.error ⟨ErrorKind.b64DecodeError⟩, [diagnostic ErrorKind.b64DecodeError])) ∧
    (∀ bytes, b64decode s = some bytes → imageOpenBytes bytes = none →
      draw_circles_on_image_v2 s coords radius fill_color outline_color outline_width
        = (Except.error ⟨ErrorKind.imageFormatError⟩,
            [diagnostic ErrorKind.imageFormatError])) ∧
    (∀ bytes img e, b64decode s = some bytes → imageOpenBytes bytes = some img →
      coords.foldlM (drawStep radius fill_color outline_color outline_width)
          (normalizeRGBA img) = Except.error e →
      draw_circles_on_image_v2 s coords radius fill_color outline_color outline_width
        = (Except.error ⟨e⟩, [diagnostic e])) ∧
    (∀ bytes img drawn, b64decode s = some bytes → imageOpenBytes bytes = some img →
      coords.foldlM (drawStep radius fill_color outline_color outline_width)
          (normalizeRGBA img) = Except.ok drawn →
      imageSavePNG drawn = none →
      draw_circles_on_image_v2 s coords radius fill_color outline_color outline_width
        = (Except.error ⟨ErrorKind.encodeError⟩, [diagnostic ErrorKind.encodeError])) ∧
    (∀ e log, draw_circles_on_image_v2 s coords radius fill_color outline_color outline_width
        = (Except.error e, log) → log = [diagnostic e.kind]) := by
  refine ⟨?_, ?_, ?_, ?_, ?_⟩
  · intro h
    unfold draw_circles_on_image_v2 drawCirclesCore
    simp [h]
  · intro bytes h1 h2
    unfold draw_circles_on_image_v2 drawCirclesCore
    simp [h1, h2]
  · intro bytes img e h1 h2 h3
    unfold draw_circles_on_image_v2 drawCirclesCore
    simp [h1, h2, h3]
  · intro bytes img drawn h1 h2 h3 h4
    unfold draw_circles_on_image_v2 drawCirclesCore
    simp [h1, h2, h3, h4]
  · intro e log h
    unfold draw_circles_on_image_v2 at h
    cases hc : drawCirclesCore s coords radius fill_color outline_color outline_width with
    | ok o =>
      rw [hc] at h
      cases h
    | error k =>
      rw [hc] at h
      cases h
      rfl

theorem spec_error_propagation_witness :
    draw_circles_on_image_v2 "%%%" [] 15 (some (ColorValue.name "red"))
        (ColorValue.name "red") 1
      = (Except.error ⟨ErrorKind.b64DecodeError⟩, [diagnostic ErrorKind.b64DecodeError]) :=
  (spec_error_propagation "%%%" [] 15 (some (ColorValue.name "red"))
    (ColorValue.name "red") 1).1 (by decide)

/-- C3: a string that is not valid base64, and a valid base64 string whose
bytes are not a supported image format, both make
`draw_circles_on_image_v2` fail with a `ProcessingError` and return no
output string. -/
theorem spec_invalid_input_rejection (s : String) (coords : List (Int × Int)) (radius : Int)
    (fill_color : Option ColorValue) (outline_color : ColorValue) (outline_width : Int)
    (h : b64decode s = none ∨
      ∃ bytes, b64decode s = some bytes ∧ imageOpenBytes bytes = none) :
    (∃ e : ProcessingError,
      (draw_circles_on_image_v2 s coords radius fill_color outline_color outline_width).1
        = Except.error e) ∧
    ∀ out, (draw_circles_on_image_v2 s coords radius fill_color outline_color
        outline_width).1 ≠ Except.ok out := by
  have herr : ∃ e : ProcessingError,
      (draw_circles_on_image_v2 s coords radius fill_color outline_color outline_width).1
        = Except.error e := by
    rcases h with h | ⟨bytes, h1, h2⟩
    · refine ⟨⟨ErrorKind.b64DecodeError⟩, ?_⟩
      unfold draw_circles_on_image_v2 drawCirclesCore
      simp [h]
    · refine ⟨⟨ErrorKind.imageFormatError⟩, ?_⟩
      unfold draw_circles_on_image_v2 drawCirclesCore
      simp [h1, h2]
  obtain ⟨e, he⟩ := herr
  refine ⟨⟨e, he⟩, ?_⟩
  intro out hout
  rw [he] at hout
  cases hout

theorem spec_invalid_input_rejection_witness :
    (∃ e : ProcessingError,
      (draw_circles_on_image_v2 "AAAA" [] 15 (some (ColorValue.name "red"))
          (ColorValue.name "red") 1).1 = Except.error e) ∧
    ∀ out, (draw_circles_on_image_v2 "AAAA" [] 15 (some (ColorValue.name "red"))
        (ColorValue.name "red") 1).1 ≠ Except.ok out :=
  spec_invalid_input_rejection "AAAA" [] 15 (some (ColorValue.name "red"))
    (ColorValue.name "red") 1 (Or.inr ⟨[0, 0, 0], by decide, rfl⟩)

/-- C4: the drawing stage makes exactly one ellipse call per coordinate, in
input order, each inscribed in the square `[x - radius, y - radius] ×
[x + radius, y + radius]`, with the resolved fill (or none), outline color
and stroke width; the fold keeps duplicate coordinates (no deduplication)
and passes coordinates through unclamped (no bounds-clamping). -/
theorem spec_per_coordinate_drawing (radius : Int) (fill_color : Option ColorValue)
    (outline_color : ColorValue) (outline_width : Int) (f : Option RGBA) (o : RGBA)
    (hf : resolveFill fill_color = some f) (ho : resolveColor outline_color = some o)
    (coords : List (Int × Int)) (img : Image) :
    coords.foldlM (drawStep radius fill_color outline_color outline_width) img
      = Except.ok (coords.foldl
          (fun im c =>
            drawEllipse (c.1 - radius) (c.2 - radius) (c.1 + radius) (c.2 + radius)
              f o outline_width im) img) :=
  foldlM_drawStep_ok radius fill_color outline_color outline_width f o hf ho coords img

theorem spec_per_coordinate_drawing_witness :
    [((0 : Int), (0 : Int)), (0, 0), (5, 9)].foldlM
        (drawStep 2 (some (ColorValue.rgba 1 2 3 4)) (ColorValue.rgb 7 8 9) 1) exImg
      = Except.ok ([((0 : Int), (0 : Int)), (0, 0), (5, 9)].foldl
          (fun im c =>
            drawEllipse (c.1 - 2) (c.2 - 2) (c.1 + 2) (c.2 + 2)
              (some ⟨1, 2, 3, 4⟩) ⟨7, 8, 9, 255⟩ 1 im) exImg) :=
  spec_per_coordinate_drawing 2 (some (ColorValue.rgba 1 2 3 4)) (ColorValue.rgb 7 8 9) 1
    (some ⟨1, 2, 3, 4⟩) ⟨7, 8, 9, 255⟩ rfl rfl [(0, 0), (0, 0), (5, 9)] exImg

/-- C5: for a single coordinate `(x, y)` with radius `r` and non-negative
outline width, every pixel of the decoded output image lying outside the
bounding box `[x - r, y - r, x + r, y + r]` expanded by the outline width is
unchanged from the corresponding pixel of the input image. -/
theorem spec_frame_outside_bbox (s : String) (x y radius : Int)
    (fill_color : Option ColorValue) (outline_color : ColorValue) (outline_width : Int)
    (bytes : Bytes) (img : Image) (f : Option RGBA) (o : RGBA) (i j : Nat)
    (hdec : b64decode s = some bytes)
    (hopen : imageOpenBytes bytes = some img)
    (hf : resolveFill fill_color = some f)
    (ho : resolveColor outline_color = some o)
    (hwpos : 0 ≤ outline_width)
    (houtside : (i : Int) < x - radius - outline_width
      ∨ x + radius + outline_width < (i : Int)
      ∨ (j : Int) < y - radius - outline_width
      ∨ y + radius + outline_width < (j : Int)) :
    ∃ out png fin,
      draw_circles_on_image_v2 s [(x, y)] radius fill_color outline_color outline_width
        = (Except.ok out, []) ∧
      b64decode out = some png ∧
      imageOpenBytes png = some fin ∧
      fin.getPixel i j = img.getPixel i j := by
  obtain ⟨out, png, hout, hpng, hfin⟩ :=
    decodedOutput s [(x, y)] radius fill_color outline_color outline_width bytes img f o
      hdec hopen hf ho
  refine ⟨out, png, drawLoop radius f o outline_width (normalizeRGBA img) [(x, y)],
    hout, hpng, hfin, ?_⟩
  have hng : ¬(x - radius ≤ (i : Int) ∧ (i : Int) ≤ x + radius ∧
      y - radius ≤ (j : Int) ∧ (j : Int) ≤ y + radius) := by
    rcases houtside with h | h | h | h <;> omega
  have hdl : drawLoop radius f o outline_width (normalizeRGBA img) [(x, y)]
      = drawEllipse (x - radius) (y - radius) (x + radius) (y + radius) f o outline_width
          (normalizeRGBA img) := rfl
  rw [hdl, getPixel_drawEllipse, getPixel_normalizeRGBA]
  cases img.getPixel i j with
  | none => rfl
  | some p => simp [ellipsePx_outside _ _ _ _ f o outline_width i j p hng]

theorem spec_frame_outside_bbox_witness :
    ∃ out png fin,
      draw_circles_on_image_v2 exStr [(10, 10)] 1 (some (ColorValue.name "red"))
          (ColorValue.name "red") 1
        = (Except.ok out, []) ∧
      b64decode out = some png ∧
      imageOpenBytes png = some fin ∧
      fin.getPixel 0 0 = exImg.getPixel 0 0 :=
  spec_frame_outside_bbox exStr 10 10 1 (some (ColorValue.name "red"))
    (ColorValue.name "red") 1 exBytes exImg (some ⟨255, 0, 0, 255⟩) ⟨255, 0, 0, 255⟩ 0 0
    (b64decode_b64encode exBytes (mem_pngPayload_lt exImg 4))
    (imageOpenBytes_pngPayload exImg 4 rfl (by decide))
    rfl rfl (by decide) (Or.inl (by decide))

/-- C6: with an empty coordinate sequence and a valid input image, the
function succeeds and the decoded output is pixel-identical to the input
image (same pixel grid and dimensions; only the color-mode normalization to
RGBA may differ). -/
theorem spec_noop_empty_coords (s : String) (radius : Int)
    (fill_color : Option ColorValue) (outline_color : ColorValue) (outline_width : Int)
    (bytes : Bytes) (img : Image) (f : Option RGBA) (o : RGBA)
    (hdec : b64decode s = some bytes)
    (hopen : imageOpenBytes bytes = some img)
    (hf : resolveFill fill_color = some f)
    (ho : resolveColor outline_color = some o) :
    ∃ out png fin,
      draw_circles_on_image_v2 s [] radius fill_color outline_color outline_width
        = (Except.ok out, []) ∧
      b64decode out = some png ∧
      imageOpenBytes png = some fin ∧
      fin.pixels = img.pixels ∧ fin.width = img.width ∧ fin.height = img.height := by
  obtain ⟨out, png, hout, hpng, hfin⟩ :=
    decodedOutput s [] radius fill_color outline_color outline_width bytes img f o
      hdec hopen hf ho
  exact ⟨out, png, drawLoop radius f o outline_width (normalizeRGBA img) [],
    hout, hpng, hfin, normalizeRGBA_pixels img, normalizeRGBA_width img,
    normalizeRGBA_height img⟩

theorem spec_noop_empty_coords_witness :
    ∃ out png fin,
      draw_circles_on_image_v2 exStr [] 15 (some (ColorValue.name "red"))
          (ColorValue.name "red") 1
        = (Except.ok out, []) ∧
      b64decode out = some png ∧
      imageOpenBytes png = some fin ∧
      fin.pixels = exImg.pixels ∧ fin.width = exImg.width ∧ fin.height = exImg.height :=
  spec_noop_empty_coords exStr 15 (some (ColorValue.name "red")) (ColorValue.name "red") 1
    exBytes exImg (some ⟨255, 0, 0, 255⟩) ⟨255, 0, 0, 255⟩
    (b64decode_b64encode exBytes (mem_pngPayload_lt exImg 4))
    (imageOpenBytes_pngPayload exImg 4 rfl (by decide))
    rfl rfl

/-- C7: when the decoded image's mode carries no alpha channel, the function
converts it to RGBA (truecolor+alpha) before drawing, and the PNG
re-encoding preserves the mode, so the decoded output is in RGBA mode. -/
theorem spec_alpha_mode_conversion (s : String) (coords : List (Int × Int)) (radius : Int)
    (fill_color : Option ColorValue) (outline_color : ColorValue) (outline_width : Int)
    (bytes : Bytes) (img : Image) (f : Option RGBA) (o : RGBA)
    (hdec : b64decode s = some bytes)
    (hopen : imageOpenBytes bytes = some img)
    (hf : resolveFill fill_color = some f)
    (ho : resolveColor outline_color = some o)
    (hnoalpha : modeHasAlpha img.mode = false) :
    normalizeRGBA img = img.convert "RGBA" ∧
    ∃ out png fin,
      draw_circles_on_image_v2 s coords radius fill_color outline_color outline_width
        = (Except.ok out, []) ∧
      b64decode out = some png ∧
      imageOpenBytes png = some fin ∧
      fin.mode = "RGBA" := by
  have hne : img.mode ≠ "RGBA" := by
    intro h
    simp [modeHasAlpha, h] at hnoalpha
  constructor
  · unfold normalizeRGBA
    rw [if_pos hne]
  · obtain ⟨out, png, hout, hpng, hfin⟩ :=
      decodedOutput s coords radius fill_color outline_color outline_width bytes img f o
        hdec hopen hf ho
    exact ⟨out, png, drawLoop radius f o outline_width (normalizeRGBA img) coords,
      hout, hpng, hfin, by rw [drawLoop_mode, normalizeRGBA_mode]⟩

theorem spec_alpha_mode_conversion_witness :
    normalizeRGBA exImg = exImg.convert "RGBA" ∧
    ∃ out png fin,
      draw_circles_on_image_v2 exStr [(1, 0)] 15 (some (ColorValue.name "red"))
          (ColorValue.name "red") 1
        = (Except.ok out, []) ∧
      b64decode out = some png ∧
      imageOpenBytes png = some fin ∧
      fin.mode = "RGBA" :=
  spec_alpha_mode_conversion exStr [(1, 0)] 15 (some (ColorValue.name "red"))
    (ColorValue.name "red") 1 exBytes exImg (some ⟨255, 0, 0, 255⟩) ⟨255, 0, 0, 255⟩
    (b64decode_b64encode exBytes (mem_pngPayload_lt exImg 4))
    (imageOpenBytes_pngPayload exImg 4 rfl (by decide))
    rfl rfl (by decide)

/-- C8: omitting the drawing parameters uses the documented defaults —
radius 15, fill color "red", outline color "red", outline width 1. -/
theorem spec_default_parameters : ∀ (s : String) (coords : List (Int × Int)),
    draw_circles_on_image_v2 s coords
      = draw_circles_on_image_v2 s coords 15 (some (ColorValue.name "red"))
          (ColorValue.name "red") 1 :=
  fun _ _ => rfl

/-- C9: `draw_circles_on_image_v2` is deterministic — two invocations with
equal image string, coordinate sequence and drawing parameters produce equal
results (the same output string, or identically the same failure and
diagnostic), the function reading no state other than its arguments. -/
theorem spec_deterministic (s1 s2 : String) (c1 c2 : List (Int × Int)) (r1 r2 : Int)
    (f1 f2 : Option ColorValue) (o1 o2 : ColorValue) (w1 w2 : Int)
    (hs : s1 = s2) (hc : c1 = c2) (hr : r1 = r2) (hf : f1 = f2) (ho : o1 = o2)
    (hw : w1 = w2) :
    draw_circles_on_image_v2 s1 c1 r1 f1 o1 w1
      = draw_circles_on_image_v2 s2 c2 r2 f2 o2 w2 := by
  subst hs hc hr hf ho hw
  rfl

theorem spec_deterministic_witness :
    draw_circles_on_image_v2 "x" [(0, 0)] 15 none (ColorValue.name "red") 1
      = draw_circles_on_image_v2 "x" [(0, 0)] 15 none (ColorValue.name "red") 1 :=
  spec_deterministic "x" "x" [(0, 0)] [(0, 0)] 15 15 none none
    (ColorValue.name "red") (ColorValue.name "red") 1 1 rfl rfl rfl rfl rfl rfl

/-- C10: the normalization condition is exactly `mode != 'RGBA'`: any image
whose mode is not RGBA — including alpha-carrying modes such as LA — is
converted to RGBA, an RGBA image is left untouched, and the image that the
drawing loop operates on (and which is then encoded) is always in RGBA
mode. -/
theorem spec_rgba_normalization_condition (img : Image) (radius w : Int)
    (f : Option RGBA) (o : RGBA) (coords : List (Int × Int)) :
    (normalizeRGBA img).mode = "RGBA" ∧
    (img.mode ≠ "RGBA" → normalizeRGBA img = img.convert "RGBA") ∧
    (img.mode = "RGBA" → normalizeRGBA img = img) ∧
    (img.mode = "LA" → normalizeRGBA img = img.convert "RGBA") ∧
    (drawLoop radius f o w (normalizeRGBA img) coords).mode = "RGBA" := by
  refine ⟨normalizeRGBA_mode img, ?_, ?_, ?_, ?_⟩
  · intro h
    unfold normalizeRGBA
    rw [if_pos h]
  · intro h
    unfold normalizeRGBA
    rw [if_neg (by simp [h])]
  · intro h
    unfold normalizeRGBA
    rw [if_pos (by simp [h])]
  · rw [drawLoop_mode, normalizeRGBA_mode]

theorem spec_rgba_normalization_condition_witness :
    normalizeRGBA exImgLA = exImgLA.convert "RGBA" :=
  (spec_rgba_normalization_condition exImgLA 0 0 none ⟨0, 0, 0, 0⟩ []).2.2.2.1 rfl
